import Mathlib

set_option maxRecDepth 8000

/-!
Verification development for the `EnumExplorer` Slither plugin
(`corpus_studies/solidity_state_study/slither_plugins/EnumExplorer.py`).

The plugin infers, for one contract, a finite-state-machine abstraction of a
single enum-typed state variable: a predicate evaluator (`possibleStates`)
maps boolean guard expressions to the set of enum values satisfying them, and
a control-flow walker (`exploreNode`, with helpers `mergeInfo`,
`mergeEndingStates`, `completeCodePath`) propagates state-possibility sets
through the control-flow graph, emitting transition edges; `exploreFunction`,
`find_initial_states` and `inferTransitionGraph` drive the analysis.

The embedding below mirrors the Python source; slither's input structures
(expression trees, CFG nodes, functions) are modelled as inductive data, and
Python's unbounded recursion is modelled with an explicit fuel parameter so
every definition is executable.  Python runtime failures (raised exceptions,
failed `assert`s, attribute/index errors on `None`) are modelled as `none`.
-/

namespace EnumExplorer

/-- Identity of the declaration an `Identifier` expression references in
slither: a variable (state variable, local, or parameter), an enum
declaration (`EnumContract`), or a function.  The Python code compares the
`value` field of `Identifier` nodes against objects of these kinds; values of
different kinds are never equal. -/
inductive RefVal where
  | var (v : Nat)
  | enumT (e : Nat)
  | func (f : Nat)

/-- Binary operator tags (`BinaryOperationType`); `other` stands for every
operator the plugin does not inspect. -/
inductive BinOpT where
  | ANDAND
  | OROR
  | EQUAL
  | NOT_EQUAL
  | other

/-- Unary operator tags (`UnaryOperationType`). -/
inductive UnOpT where
  | BANG
  | other

/-- Assignment operator tags (`AssignmentOperationType`). -/
inductive AsgT where
  | ASSIGN
  | other

/-- Shallow embedding of the slither expression trees the plugin inspects:
`Identifier`, `MemberAccess`, `UnaryOperation`, `BinaryOperation`,
`AssignmentOperation`, `CallExpression`.  The `other` constructor covers both
a missing (`None`) expression and every further expression class; the Python
code only ever probes such values with `isinstance` tests that fail. -/
inductive Expression where
  | ident (value : RefVal)
  | memberAccess (expression : Expression) (member_name : String)
  | unary (type : UnOpT) (expression : Expression)
  | binary (type : BinOpT) (expression_left expression_right : Expression)
  | assign (type : AsgT) (expression_left expression_right : Expression)
  | call (called : Expression) (arguments : List Expression)
  | other

/-- Member name of an enum-constant literal of enum type `enum_type`:
`EnumType.X` yields `some "X"`.  This packages the source's
`expr_is_enum_val` test together with the `member_name` projection the code
performs right after a successful test. -/
def enum_val_name (exp : Expression) (enum_type : Nat) : Option String :=
  match exp with
  | .memberAccess (.ident (.enumT e)) m => if e == enum_type then some m else none
  | _ => none

/-- Source `expr_is_enum_val`: the expression is a `MemberAccess` whose base
is an `Identifier` referring to the tracked enum declaration. -/
def expr_is_enum_val (exp : Expression) (enum_type : Nat) : Bool :=
  (enum_val_name exp enum_type).isSome

/-- Source `expr_is_var`: the expression is an `Identifier` referring to the
given variable. -/
def expr_is_var (exp : Expression) (var : Nat) : Bool :=
  match exp with
  | .ident (.var v) => v == var
  | _ => false

/-- CFG node type tags (`NodeType`); only `IF` and `IFLOOP` are inspected,
`OTHER` stands for every remaining tag. -/
inductive NodeType where
  | IF
  | IFLOOP
  | OTHER

/-- One slither CFG node, with the fields the plugin reads: the node type,
the ordered successor list (`sons`), the attached expression (`other` when
`None`), and the two externally supplied predicates `is_revert` (from
`slither.detectors.functions.modifier`) and `contains_require_or_assert`. -/
structure NodeData where
  type : NodeType
  sons : List Nat
  expression : Expression
  is_revert : Bool
  contains_require_or_assert : Bool

/-- One slither function: parameter list (variable identities), optional
entry CFG node, and the two constructor-role flags the driver reads. -/
structure FuncData where
  params : List Nat
  entry : Option Nat
  is_constructor : Bool
  is_constructor_variables : Bool

/-- The analysis inputs held by the `EnumExplorer` object: the contract's CFG
nodes and functions (indexed by number), the tracked state variable, the
tracked enum declaration, and the enum's ordered declared member names. -/
structure Env where
  nodes : List NodeData
  funcs : List FuncData
  state_var : Nat
  enum_type : Nat
  enum_values : List String

/-- Source `self.all_states = set(enum_type.values)`. -/
def Env.all_states (env : Env) : Finset String := env.enum_values.toFinset

/-- A substitution map from a callee's formal parameters to the caller's
actual argument expressions (`Dict[Variable, Expression]`). -/
abbrev Subs := List (Nat × Expression)

/-- One-shot resolution of an `Identifier` through the substitution map
(source lines 192-193: `if isinstance(exp_right, Identifier) and
exp_right.value in subs: exp_right = subs[exp_right.value]`); only a variable
reference can be a key of the variable-keyed dictionary. -/
def substTop (subs : Subs) (e : Expression) : Expression :=
  match e with
  | .ident (.var v) =>
    match List.lookup v subs with
    | some e2 => e2
    | none => e
  | _ => e

/-- Shared body of the `EQUAL` / `NOT_EQUAL` branch of `_possibleStates`
(source lines 183-199): swap the operands when the right one is the tracked
state variable, resolve an `Identifier` right operand through the
substitution map, then require an enum-constant literal; `isEq` distinguishes
`==` from `!=`. -/
def compareToConst (env : Env) (subs : Subs) (isEq : Bool)
    (exp_left exp_right : Expression) : Option (Finset String) :=
  let p := if expr_is_var exp_right env.state_var then (exp_right, exp_left)
           else (exp_left, exp_right)
  if expr_is_var p.1 env.state_var then
    match enum_val_name (substTop subs p.2) env.enum_type with
    | some m => if isEq then some {m} else some (env.all_states \ {m})
    | none => none
  else none

/-- Source `_possibleStates`: the partial predicate classifier.  Returns the
set of state values making the expression true, or `none` ("unknown") when
the expression is not of a recognized shape. -/
def _possibleStates (env : Env) : Expression → Subs → Option (Finset String)
  | .unary .BANG e, subs =>
    match _possibleStates env e subs with
    | none => none
    | some ret => some (env.all_states \ ret)
  | .binary .ANDAND l r, subs =>
    match _possibleStates env l subs, _possibleStates env r subs with
    | none, right => right
    | some left, none => some left
    | some left, some right => some (left ∩ right)
  | .binary .OROR l r, subs =>
    match _possibleStates env l subs, _possibleStates env r subs with
    | none, right => right
    | some left, none => some left
    | some left, some right => some (left ∪ right)
  | .binary .EQUAL l r, subs => compareToConst env subs true l r
  | .binary .NOT_EQUAL l r, subs => compareToConst env subs false l r
  | _, _ => none

/-- Source `possibleStates`: total wrapper collapsing the classifier's
"unknown" to `all_states` ("this predicate constrains nothing"). -/
def possibleStates (env : Env) (exp : Expression) (subs : Subs) : Finset String :=
  match _possibleStates env exp subs with
  | some states => states
  | none => env.all_states

/-- Source `mergeEndingStates`: an assignment `state_var = EnumType.X` sets
the ending states to the singleton, an assignment of any other expression to
`state_var` sets them to `all_states`, and any other statement leaves them
unchanged.  (The `subs` parameter is accepted but, as in the source, never
consulted.) -/
def mergeEndingStates (env : Env) (node : NodeData)
    (ending_states : Finset (Option String)) (subs : Subs) : Finset (Option String) :=
  match node.expression with
  | .assign .ASSIGN lhs rhs =>
    if expr_is_var lhs env.state_var then
      match enum_val_name rhs env.enum_type with
      | some m => {some m}
      | none => env.all_states.image some
    else ending_states
  | _ => ending_states

/-- A transition edge `(s_from, s_to, label)`.  Modelled from the spec: the
source imports `Edge` from `Graph.py`, which is not among the given sources;
spec section 3 describes it as a triple of start state, end state and routine
label, deduplicated by the full triple. -/
structure Edge where
  s_from : String
  s_to : String
  label : Nat
deriving DecidableEq

/-- Resolution of one ending-state entry at a path end (source
`completeCodePath`, lines 70-73): the `None` marker ("unchanged") resolves to
the start state, a concrete value resolves to itself. -/
def resolveEnd (start : String) (endv : Option String) : String :=
  match endv with
  | none => start
  | some v => v

/-- Source `completeCodePath`: add, for every `start` in the context and
every entry in the ending-state set, the resolved edge labelled with the
current function, to the working edge set. -/
def completeCodePath (func : Nat) (context : Finset String)
    (ending_states : Finset (Option String)) (edges : Finset Edge) : Finset Edge :=
  edges ∪ context.biUnion (fun start =>
    ending_states.image (fun endv => ⟨start, resolveEnd start endv, func⟩))

/-- Type of the recursive exploration continuation: node id, context, ending
states, substitutions, level, working edge set, to an optional pair of the
returned context and the updated edge set (`none` models a Python exception
or exhausted fuel). -/
abbrev ExploreFun :=
  Nat → Finset String → Finset (Option String) → Subs → Nat → Finset Edge →
    Option (Finset String × Finset Edge)

/-- Source `mergeInfo`, parameterized by the exploration continuation used
for call inlining.  A require/assert node intersects the context with the
`possibleStates` of the single argument; a call to a statically resolved
function re-explores the callee's entry node at `level + 1` under a fresh
substitution map built by zipping formals with actuals (the `assert` on the
lengths and a missing entry point are modelled as failure); any other node
returns a copy of the context. -/
def mergeInfoF (env : Env) (explore : ExploreFun) (node : NodeData)
    (context : Finset String) (ending_states : Finset (Option String))
    (subs : Subs) (level : Nat) (edges : Finset Edge) :
    Option (Finset String × Finset Edge) :=
  if node.contains_require_or_assert then
    match node.expression with
    | .call _ (arg0 :: _) => some (context ∩ possibleStates env arg0 subs, edges)
    | _ => none
  else
    match node.expression with
    | .call (.ident (.func fid)) arguments =>
      match env.funcs[fid]? with
      | none => none
      | some fd =>
        if fd.params.length = arguments.length then
          match fd.entry with
          | none => none
          | some entry =>
            match explore entry context ending_states (fd.params.zip arguments)
                (level + 1) edges with
            | none => none
            | some (res, edges2) => some (context ∩ res, edges2)
        else none
    | _ => some (context, edges)

/-- One step of source `exploreNode` (lines 77-110), parameterized by the
continuation used for all recursive exploration: refine the context via
`mergeInfo` and the ending states via `mergeEndingStates`; a revert node
returns the empty set; a terminal node completes the code path (at level 0
only) and returns the refined context; a single successor is followed; an
`IF` node splits the context between the two arms using `possibleStates` of
the condition and its negation and returns the union; an `IFLOOP` node skips
the loop body; any other multi-successor node raises. -/
def exploreNodeF (env : Env) (func : Nat) (explore : ExploreFun) (nid : Nat)
    (context : Finset String) (ending_states : Finset (Option String))
    (subs : Subs) (level : Nat) (edges : Finset Edge) :
    Option (Finset String × Finset Edge) :=
  match env.nodes[nid]? with
  | none => none
  | some node =>
    match mergeInfoF env explore node context ending_states subs level edges with
    | none => none
    | some (newCtx, edges1) =>
      let new_ending_states := mergeEndingStates env node ending_states subs
      if node.is_revert then some (∅, edges1)
      else
        match node.sons with
        | [] =>
          if level == 0 then
            some (newCtx, completeCodePath func newCtx new_ending_states edges1)
          else some (newCtx, edges1)
        | [son] => explore son newCtx new_ending_states subs level edges1
        | son_true :: son_false :: _ =>
          match node.type with
          | .IF =>
            match explore son_true (newCtx ∩ possibleStates env node.expression subs)
                new_ending_states subs level edges1 with
            | none => none
            | some (res_true, edges2) =>
              match explore son_false
                  (newCtx ∩ possibleStates env (.unary .BANG node.expression) subs)
                  new_ending_states subs level edges2 with
              | none => none
              | some (res_false, edges3) => some (res_true ∪ res_false, edges3)
          | .IFLOOP => explore son_false newCtx new_ending_states subs level edges1
          | .OTHER => none

/-- Source `exploreNode`, with an explicit fuel bounding the recursion depth
(the Python recursion is unbounded; exhausted fuel yields `none`). -/
def exploreNode (env : Env) (func : Nat) : Nat → ExploreFun
  | 0 => fun _ _ _ _ _ _ => none
  | fuel + 1 => exploreNodeF env func (exploreNode env func fuel)

/-- Source `mergeInfo` with the continuation instantiated to `exploreNode` at
the given fuel; definitionally the `mergeInfo` call performed by
`exploreNode` at fuel `fuel + 1`. -/
def mergeInfo (env : Env) (func : Nat) (fuel : Nat) (node : NodeData)
    (context : Finset String) (ending_states : Finset (Option String))
    (subs : Subs) (level : Nat) (edges : Finset Edge) :
    Option (Finset String × Finset Edge) :=
  mergeInfoF env (exploreNode env func fuel) node context ending_states subs level edges

/-- Source `exploreFunction`: explore from the entry point with context
`all_states` and ending states `{UNCHANGED}` and a fresh edge set; a function
with no entry point yields the reflexive edges on all states. -/
def exploreFunction (env : Env) (fuel : Nat) (fid : Nat) : Option (Finset Edge) :=
  match env.funcs[fid]? with
  | none => none
  | some fd =>
    match fd.entry with
    | some entry =>
      match exploreNode env fid fuel entry env.all_states {none} [] 0 ∅ with
      | none => none
      | some (_, edges) => some edges
    | none => some (env.all_states.image (fun s => ⟨s, s, fid⟩))

/-- Leading-segment test on character lists (needle leads hay). -/
def charsLeadWith : List Char → List Char → Bool
  | [], _ => true
  | _ :: _, [] => false
  | a :: as, b :: bs => a == b && charsLeadWith as bs

/-- Containment test on character lists (hay contains needle somewhere). -/
def charsContain (needle : List Char) : List Char → Bool
  | [] => charsLeadWith needle []
  | b :: bs => charsLeadWith needle (b :: bs) || charsContain needle bs

/-- Python's `x in s` on strings: a substring test. -/
def pyStrIn (needle hay : String) : Bool := charsContain needle.data hay.data

/-- Dynamic type of the Python local `initial_states` in
`find_initial_states`: it starts as the bare string `enum_type.values[0]` and
becomes a set of strings only when a constructor is explored. -/
inductive PyVal where
  | str (s : String)
  | set (s : Finset String)
deriving DecidableEq

/-- Python's `x in v` for the dynamically typed `initial_states` value:
substring test on a string, membership on a set. -/
def pyMem (x : String) (v : PyVal) : Bool :=
  match v with
  | .str s => pyStrIn x s
  | .set s => decide (x ∈ s)

/-- Source `find_initial_states`: start from the bare first declared enum
value (an `IndexError` on an empty value list is modelled as failure), then
for the field-initializer pseudo-function and the constructor, in order and
when present, replace it by the set of ending states of explored edges whose
start state passes Python's `in` test against the running value. -/
def find_initial_states (env : Env) (fuel : Nat)
    (constructor_vars : Option Nat) (constructor : Option Nat) : Option PyVal :=
  match env.enum_values.head? with
  | none => none
  | some first =>
    -- one of the two identical refinement blocks of the source, shared
    let step : PyVal → Option Nat → Option PyVal := fun init c =>
      match c with
      | none => some init
      | some fid =>
        match exploreFunction env fuel fid with
        | none => none
        | some edges =>
          some (.set ((edges.filter (fun e => pyMem e.s_from init = true)).image
            (fun e => e.s_to)))
    match step (.str first) constructor_vars with
    | none => none
    | some init2 => step init2 constructor

/-- The inferred transition graph.  Modelled from the spec: the source
imports `TransitionGraph` from `Graph.py`, which is not among the given
sources; spec sections 3 and 4.4 describe a structure constructed from the
full state domain and a precomputed initial-state value, carrying a
deduplicated edge set grown through `addEdge`.  The constructor stores the
initial-state argument exactly as passed (the Python call site hands it the
dynamically typed `find_initial_states` result). -/
structure TransitionGraph where
  states : Finset String
  initialStates : PyVal
  edges : Finset Edge
deriving DecidableEq

/-- Modelled from the spec (section 4.4): `addEdge` is a deduplicating
insert of the labelled edge. -/
def TransitionGraph.addEdge (g : TransitionGraph) (s_from s_to : String)
    (label : Nat) : TransitionGraph :=
  { g with edges := insert (Edge.mk s_from s_to label) g.edges }

/-- Source `inferTransitionGraph`: locate the first field-initializer
pseudo-function and the first constructor, compute the initial states,
construct the graph from the full state set and that value, then explore
every non-constructor function and add all its edges. -/
def inferTransitionGraph (env : Env) (fuel : Nat) : Option TransitionGraph :=
  let constructor_vars := env.funcs.findIdx? (fun f => f.is_constructor_variables)
  let constructor := env.funcs.findIdx? (fun f => f.is_constructor)
  match find_initial_states env fuel constructor_vars constructor with
  | none => none
  | some initial_states =>
    let graph : TransitionGraph := ⟨env.enum_values.toFinset, initial_states, ∅⟩
    (List.range env.funcs.length).foldlM
      (fun g fid =>
        match env.funcs[fid]? with
        | none => none
        | some fd =>
          if !(fd.is_constructor || fd.is_constructor_variables) then
            match exploreFunction env fuel fid with
            | none => none
            | some edges =>
              -- the source folds `addEdge` over the returned edges; folding a
              -- deduplicating insert over a set of edges is their set union
              some { g with edges := g.edges ∪ edges }
          else some g)
      graph

/-- Well-formedness of an expression with respect to the analysis
environment: every enum-constant literal of the tracked enum type that occurs
in a position `_possibleStates` can inspect names a declared enum value. -/
def wfE (env : Env) : Expression → Bool
  | .unary _ e => wfE env e
  | .binary _ l r => wfE env l && wfE env r
  | .memberAccess (.ident (.enumT e)) m =>
    !(e == env.enum_type) || decide (m ∈ env.all_states)
  | _ => true

/-- Well-formedness of a substitution map: every substituted expression is
well-formed. -/
def wfSubs (env : Env) (subs : Subs) : Bool :=
  subs.all (fun p => wfE env p.2)

/-- The enum-constant literal `State.A` over enum declaration `0`. -/
def cA : Expression := .memberAccess (.ident (.enumT 0)) "A"

/-- The tracked state variable (variable `0`) as an expression. -/
def vS : Expression := .ident (.var 0)

/-- A plain terminal CFG node. -/
def nTerm : NodeData := ⟨.OTHER, [], .other, false, false⟩

/-- A terminal revert node. -/
def nRevert : NodeData := ⟨.OTHER, [], .other, true, false⟩

/-- An assignment `state = x` (non-constant right-hand side, variable `1`)
followed by node `0`. -/
def nAssign : NodeData := ⟨.OTHER, [0], .assign .ASSIGN vS (.ident (.var 1)), false, false⟩

/-- A `require(state == State.A)` node followed by node `0`. -/
def nRequire : NodeData := ⟨.OTHER, [0], .call .other [.binary .EQUAL vS cA], false, true⟩

/-- A small concrete analysis environment over states `A`, `B`: function `0`
is a plain function, function `1` has no entry point (a stub), function `2`
reverts unconditionally, function `3` starts with the require guard. -/
def envA : Env :=
  ⟨[nTerm, nRevert, nAssign, nRequire],
   [⟨[], some 0, false, false⟩,
    ⟨[], none, false, false⟩,
    ⟨[], some 1, false, false⟩,
    ⟨[], some 3, false, false⟩],
   0, 0, ["A", "B"]⟩

/-- Concrete environment for the call-chain scenarios, over states `A`, `B`:
function `0` (`f`) calls function `1` (`g`) with the constant `State.A`;
`g`'s parameter is variable `1` and `g` calls function `2` (`h`) with that
parameter; `h`'s parameter is variable `2` and `h`'s body is
`require(state == q)`.  Function `3` is the 2-level variant calling `h`
directly with the constant `State.A`. -/
def env5 : Env :=
  ⟨[⟨.OTHER, [1], .call (.ident (.func 1)) [cA], false, false⟩,
    ⟨.OTHER, [], .other, false, false⟩,
    ⟨.OTHER, [3], .call (.ident (.func 2)) [.ident (.var 1)], false, false⟩,
    ⟨.OTHER, [], .other, false, false⟩,
    ⟨.OTHER, [5], .call .other [.binary .EQUAL vS (.ident (.var 2))], false, true⟩,
    ⟨.OTHER, [], .other, false, false⟩,
    ⟨.OTHER, [7], .call (.ident (.func 2)) [cA], false, false⟩,
    ⟨.OTHER, [], .other, false, false⟩],
   [⟨[], some 0, false, false⟩,
    ⟨[1], some 2, false, false⟩,
    ⟨[2], some 4, false, false⟩,
    ⟨[], some 6, false, false⟩],
   0, 0, ["A", "B"]⟩

/-! ## Helper lemmas -/

/-- A recognized enum-constant literal of a well-formed expression names a
declared enum value. -/
theorem enum_val_name_mem_of_wf (env : Env) (e : Expression) (m : String)
    (hwf : wfE env e = true) (h : enum_val_name e env.enum_type = some m) :
    m ∈ env.all_states := by
  cases e with
  | memberAccess b mn =>
    cases b with
    | ident v =>
      cases v with
      | enumT et =>
        simp only [enum_val_name] at h
        by_cases het : (et == env.enum_type) = true
        · rw [if_pos het] at h
          cases h
          simp only [wfE, het, Bool.not_true, Bool.false_or,
            decide_eq_true_eq] at hwf
          exact hwf
        · rw [if_neg het] at h
          cases h
      | var v => simp [enum_val_name] at h
      | func f => simp [enum_val_name] at h
    | _ => simp_all [enum_val_name]
  | _ => simp_all [enum_val_name]

/-- Looking a key up in a well-formed substitution map yields a well-formed
expression. -/
theorem wfSubs_lookup (env : Env) (subs : Subs) (v : Nat) (e : Expression)
    (hws : wfSubs env subs = true) (h : List.lookup v subs = some e) :
    wfE env e = true := by
  induction subs with
  | nil => simp [List.lookup] at h
  | cons a l ih =>
    simp only [wfSubs, List.all_cons, Bool.and_eq_true] at hws
    simp only [List.lookup] at h
    cases hv : (v == a.1) with
    | true =>
      rw [hv] at h
      cases h
      exact hws.1
    | false =>
      rw [hv] at h
      exact ih (by simpa [wfSubs] using hws.2) h

/-- Substitution resolution preserves well-formedness. -/
theorem wfE_substTop (env : Env) (subs : Subs) (e : Expression)
    (hw : wfE env e = true) (hws : wfSubs env subs = true) :
    wfE env (substTop subs e) = true := by
  cases e with
  | ident rv =>
    cases rv with
    | var v =>
      simp only [substTop]
      cases hl : List.lookup v subs with
      | none => exact hw
      | some e2 => exact wfSubs_lookup env subs v e2 hws hl
    | enumT et => exact hw
    | func f => exact hw
  | memberAccess b m => exact hw
  | unary t e => exact hw
  | binary t l r => exact hw
  | assign t l r => exact hw
  | call c a => exact hw
  | other => exact hw

/-- Core of the comparison branch: once the non-variable operand is resolved
and recognized, the produced set is a subset of `all_states`. -/
theorem compare_core_subset (env : Env) (subs : Subs) (isEq : Bool)
    (e2 : Expression) (s : Finset String)
    (hw : wfE env e2 = true) (hws : wfSubs env subs = true)
    (h : (match enum_val_name (substTop subs e2) env.enum_type with
          | some m => if isEq then some {m} else some (env.all_states \ {m})
          | none => (none : Option (Finset String))) = some s) :
    s ⊆ env.all_states := by
  split at h
  case h_1 m hev =>
    have hm : m ∈ env.all_states :=
      enum_val_name_mem_of_wf env (substTop subs e2) m
        (wfE_substTop env subs e2 hw hws) hev
    split at h
    · simp only [Option.some.injEq] at h
      subst h
      intro x hx
      rw [Finset.mem_singleton] at hx
      exact hx ▸ hm
    · simp only [Option.some.injEq] at h
      subst h
      exact Finset.sdiff_subset
  case h_2 hev => cases h

/-- A classified comparison yields a subset of `all_states`, provided the two
operands and the substitution map are well-formed. -/
theorem compareToConst_subset (env : Env) (subs : Subs) (isEq : Bool)
    (l r : Expression) (s : Finset String)
    (hwl : wfE env l = true) (hwr : wfE env r = true)
    (hws : wfSubs env subs = true)
    (h : compareToConst env subs isEq l r = some s) : s ⊆ env.all_states := by
  have key : ∀ a b : Expression, wfE env b = true →
      ((if expr_is_var a env.state_var = true then
          match enum_val_name (substTop subs b) env.enum_type with
          | some m => if isEq then some {m} else some (env.all_states \ {m})
          | none => none
        else none) = some s) → s ⊆ env.all_states := by
    intro a b hwb hh
    split at hh
    · exact compare_core_subset env subs isEq b s hwb hws hh
    · cases hh
  simp only [compareToConst] at h
  by_cases hswap : expr_is_var r env.state_var = true
  · rw [if_pos hswap] at h
    exact key r l hwl h
  · rw [if_neg hswap] at h
    exact key l r hwr h

/-- Whenever the classifier returns a definite set for a well-formed
expression under a well-formed substitution map, that set is a subset of
`all_states`. -/
theorem _possibleStates_subset (env : Env) (subs : Subs)
    (hws : wfSubs env subs = true) :
    ∀ e : Expression, wfE env e = true →
      ∀ s, _possibleStates env e subs = some s → s ⊆ env.all_states
  | .ident v => by intro _ s h; simp [_possibleStates] at h
  | .memberAccess b m => by intro _ s h; simp [_possibleStates] at h
  | .unary t e => by
    intro hwf s h
    cases t with
    | BANG =>
      simp only [_possibleStates] at h
      cases he : _possibleStates env e subs with
      | none => rw [he] at h; cases h
      | some ret =>
        rw [he] at h
        simp only [Option.some.injEq] at h
        subst h
        exact Finset.sdiff_subset
    | other => simp [_possibleStates] at h
  | .binary t l r => by
    intro hwf s h
    have ihl := _possibleStates_subset env subs hws l
    have ihr := _possibleStates_subset env subs hws r
    have hwlr : wfE env l = true ∧ wfE env r = true := by
      simpa [wfE, Bool.and_eq_true] using hwf
    cases t with
    | ANDAND =>
      simp only [_possibleStates] at h
      cases hl : _possibleStates env l subs with
      | none =>
        rw [hl] at h
        exact ihr hwlr.2 s h
      | some left =>
        rw [hl] at h
        cases hr : _possibleStates env r subs with
        | none =>
          rw [hr] at h
          simp only [Option.some.injEq] at h
          subst h
          exact ihl hwlr.1 left hl
        | some right =>
          rw [hr] at h
          simp only [Option.some.injEq] at h
          subst h
          exact fun x hx => ihl hwlr.1 left hl (Finset.mem_of_mem_inter_left hx)
    | OROR =>
      simp only [_possibleStates] at h
      cases hl : _possibleStates env l subs with
      | none =>
        rw [hl] at h
        exact ihr hwlr.2 s h
      | some left =>
        rw [hl] at h
        cases hr : _possibleStates env r subs with
        | none =>
          rw [hr] at h
          simp only [Option.some.injEq] at h
          subst h
          exact ihl hwlr.1 left hl
        | some right =>
          rw [hr] at h
          simp only [Option.some.injEq] at h
          subst h
          exact Finset.union_subset (ihl hwlr.1 left hl) (ihr hwlr.2 right hr)
    | EQUAL =>
      simp only [_possibleStates] at h
      exact compareToConst_subset env subs true l r s hwlr.1 hwlr.2 hws h
    | NOT_EQUAL =>
      simp only [_possibleStates] at h
      exact compareToConst_subset env subs false l r s hwlr.1 hwlr.2 hws h
    | other => simp [_possibleStates] at h
  | .assign t l r => by intro _ s h; simp [_possibleStates] at h
  | .call c a => by intro _ s h; simp [_possibleStates] at h
  | .other => by intro _ s h; simp [_possibleStates] at h

/-! ## Claim C2 -/

/-- C2 counterexample: as stated, the subset property of C2 fails.  For the
comparison `state == EnumType.Z`, where `"Z"` is not a declared value of the
enum, `possibleStates` returns the singleton `{"Z"}`, which is not a subset
of `AllStates = {"A", "B"}`: the code extracts the member name of the
compared constant without checking it against the declared values. -/
theorem possibleStates_subset_counterexample :
    possibleStates envA (.binary .EQUAL vS (.memberAccess (.ident (.enumT 0)) "Z")) []
        = {"Z"} ∧
    ¬ (possibleStates envA (.binary .EQUAL vS (.memberAccess (.ident (.enumT 0)) "Z")) []
        ⊆ envA.all_states) := by
  constructor
  · rfl
  · decide

/-- C2 (amended): `possibleStates` is total by construction and returns the
classifier's set when it classifies and exactly `all_states` when it reports
unknown; its result is a subset of `AllStates` provided every enum-constant
literal of the tracked type occurring in the expression, or stored in the
substitution map, names a declared enum value (without this well-formedness
the result can contain undeclared member names, see the counterexample). -/
theorem possibleStates_total_subset_of_wf (env : Env) (e : Expression) (subs : Subs)
    (hwf : wfE env e = true) (hws : wfSubs env subs = true) :
    possibleStates env e subs ⊆ env.all_states ∧
      possibleStates env e subs = (_possibleStates env e subs).getD env.all_states := by
  constructor
  · unfold possibleStates
    cases h : _possibleStates env e subs with
    | none => exact fun x hx => hx
    | some s => exact _possibleStates_subset env subs hws e hwf s h
  · unfold possibleStates
    cases h : _possibleStates env e subs <;> rfl

/-- Witness for the amended C2 theorem at a concrete classifiable guard. -/
theorem possibleStates_total_subset_of_wf_witness :
    possibleStates envA (.binary .EQUAL vS cA) [(1, cA)] ⊆ envA.all_states ∧
      possibleStates envA (.binary .EQUAL vS cA) [(1, cA)]
        = (_possibleStates envA (.binary .EQUAL vS cA) [(1, cA)]).getD envA.all_states :=
  possibleStates_total_subset_of_wf envA (.binary .EQUAL vS cA) [(1, cA)]
    (by decide) (by decide)

/-! ## Claim C3 -/

/-- C3: equality between the tracked state variable and a literal constant
`EnumType.m` of the tracked enum type yields the singleton `{m}`, and
inequality yields `AllStates - {m}`; this holds with the constant written on
either side (operand order is canonicalized when the tracked variable is
syntactically on the right), and equally when the constant side is a
parameter `p` that the substitution map resolves to such a constant. -/
theorem possibleStates_compare_singleton (env : Env) (m : String) (subs : Subs)
    (p : Nat) (hp : (p == env.state_var) = false)
    (hl : List.lookup p subs
      = some (.memberAccess (.ident (.enumT env.enum_type)) m)) :
    possibleStates env (.binary .EQUAL (.ident (.var env.state_var))
        (.memberAccess (.ident (.enumT env.enum_type)) m)) subs = {m} ∧
    possibleStates env (.binary .EQUAL (.memberAccess (.ident (.enumT env.enum_type)) m)
        (.ident (.var env.state_var))) subs = {m} ∧
    possibleStates env (.binary .NOT_EQUAL (.ident (.var env.state_var))
        (.memberAccess (.ident (.enumT env.enum_type)) m)) subs
      = env.all_states \ {m} ∧
    possibleStates env (.binary .NOT_EQUAL (.memberAccess (.ident (.enumT env.enum_type)) m)
        (.ident (.var env.state_var))) subs = env.all_states \ {m} ∧
    possibleStates env (.binary .EQUAL (.ident (.var env.state_var))
        (.ident (.var p))) subs = {m} ∧
    possibleStates env (.binary .EQUAL (.ident (.var p))
        (.ident (.var env.state_var))) subs = {m} ∧
    possibleStates env (.binary .NOT_EQUAL (.ident (.var env.state_var))
        (.ident (.var p))) subs = env.all_states \ {m} ∧
    possibleStates env (.binary .NOT_EQUAL (.ident (.var p))
        (.ident (.var env.state_var))) subs = env.all_states \ {m} := by
  refine ⟨?_, ?_, ?_, ?_, ?_, ?_, ?_, ?_⟩ <;>
    simp [possibleStates, _possibleStates, compareToConst, substTop,
      expr_is_var, enum_val_name, hp, hl]

/-- Witness for C3 at the concrete environment, with parameter `1` bound to
the constant `State.A`. -/
theorem possibleStates_compare_singleton_witness :
    possibleStates envA (.binary .EQUAL (.ident (.var envA.state_var))
        (.memberAccess (.ident (.enumT envA.enum_type)) "A")) [(1, cA)] = {"A"} ∧
    possibleStates envA (.binary .EQUAL (.memberAccess (.ident (.enumT envA.enum_type)) "A")
        (.ident (.var envA.state_var))) [(1, cA)] = {"A"} ∧
    possibleStates envA (.binary .NOT_EQUAL (.ident (.var envA.state_var))
        (.memberAccess (.ident (.enumT envA.enum_type)) "A")) [(1, cA)]
      = envA.all_states \ {"A"} ∧
    possibleStates envA (.binary .NOT_EQUAL (.memberAccess (.ident (.enumT envA.enum_type)) "A")
        (.ident (.var envA.state_var))) [(1, cA)] = envA.all_states \ {"A"} ∧
    possibleStates envA (.binary .EQUAL (.ident (.var envA.state_var))
        (.ident (.var 1))) [(1, cA)] = {"A"} ∧
    possibleStates envA (.binary .EQUAL (.ident (.var 1))
        (.ident (.var envA.state_var))) [(1, cA)] = {"A"} ∧
    possibleStates envA (.binary .NOT_EQUAL (.ident (.var envA.state_var))
        (.ident (.var 1))) [(1, cA)] = envA.all_states \ {"A"} ∧
    possibleStates envA (.binary .NOT_EQUAL (.ident (.var 1))
        (.ident (.var envA.state_var))) [(1, cA)] = envA.all_states \ {"A"} :=
  possibleStates_compare_singleton envA "A" [(1, cA)] 1 rfl rfl

/-! ## Claim C6 -/

/-- C6: on the internal classifier, logical AND yields the intersection and
logical OR the union of the operand results when both operands are
classified; an unclassified (unknown) operand acts as the identity element,
the other operand's result being returned unchanged. -/
theorem possibleStates_and_or_algebra (env : Env) (subs : Subs)
    (a b c : Expression) (sa sb : Finset String)
    (ha : _possibleStates env a subs = some sa)
    (hb : _possibleStates env b subs = some sb)
    (hc : _possibleStates env c subs = none) :
    _possibleStates env (.binary .ANDAND a b) subs = some (sa ∩ sb) ∧
    _possibleStates env (.binary .OROR a b) subs = some (sa ∪ sb) ∧
    _possibleStates env (.binary .ANDAND c b) subs = _possibleStates env b subs ∧
    _possibleStates env (.binary .OROR c b) subs = _possibleStates env b subs ∧
    _possibleStates env (.binary .ANDAND a c) subs = _possibleStates env a subs ∧
    _possibleStates env (.binary .OROR a c) subs = _possibleStates env a subs := by
  refine ⟨?_, ?_, ?_, ?_, ?_, ?_⟩ <;> simp [_possibleStates, ha, hb, hc]

/-- Witness for C6 with concrete classified operands (`state == State.A`,
its negation) and the unclassifiable operand `other`. -/
theorem possibleStates_and_or_algebra_witness :
    _possibleStates envA
        (.binary .ANDAND (.binary .EQUAL vS cA) (.unary .BANG (.binary .EQUAL vS cA))) []
      = some ({"A"} ∩ {"B"}) ∧
    _possibleStates envA
        (.binary .OROR (.binary .EQUAL vS cA) (.unary .BANG (.binary .EQUAL vS cA))) []
      = some ({"A"} ∪ {"B"}) ∧
    _possibleStates envA (.binary .ANDAND .other (.unary .BANG (.binary .EQUAL vS cA))) []
      = _possibleStates envA (.unary .BANG (.binary .EQUAL vS cA)) [] ∧
    _possibleStates envA (.binary .OROR .other (.unary .BANG (.binary .EQUAL vS cA))) []
      = _possibleStates envA (.unary .BANG (.binary .EQUAL vS cA)) [] ∧
    _possibleStates envA (.binary .ANDAND (.binary .EQUAL vS cA) .other) []
      = _possibleStates envA (.binary .EQUAL vS cA) [] ∧
    _possibleStates envA (.binary .OROR (.binary .EQUAL vS cA) .other) []
      = _possibleStates envA (.binary .EQUAL vS cA) [] :=
  possibleStates_and_or_algebra envA [] (.binary .EQUAL vS cA)
    (.unary .BANG (.binary .EQUAL vS cA)) .other {"A"} {"B"}
    (by decide) (by decide) (by decide)

/-! ## Claim C7 -/

/-- C7: exploring a function whose entry control-flow node is absent (a
stub or interface function) yields exactly the reflexive edge set
`(s, s, fid)` over all states, and nothing else. -/
theorem exploreFunction_no_entry_reflexive (env : Env) (fuel fid : Nat)
    (fd : FuncData) (hf : env.funcs[fid]? = some fd) (he : fd.entry = none) :
    exploreFunction env fuel fid
      = some (env.all_states.image (fun s => ⟨s, s, fid⟩)) := by
  simp [exploreFunction, hf, he]

/-- Witness for C7 at the stub function `1` of the concrete environment. -/
theorem exploreFunction_no_entry_reflexive_witness :
    exploreFunction envA 5 1
      = some (envA.all_states.image (fun s => ⟨s, s, 1⟩)) :=
  exploreFunction_no_entry_reflexive envA 5 1 ⟨[], none, false, false⟩ rfl rfl

/-! ## Claim C10 -/

/-- C10: for an assignment to the tracked state variable whose right-hand
side is an identifier, `mergeEndingStates` returns `all_states` (unknown
outcome) even when that identifier is a parameter bound in the substitution
map to an enum constant; moreover the result never depends on the
substitution map at all. -/
theorem mergeEndingStates_ignores_substitutions (env : Env) (node : NodeData)
    (ending_states : Finset (Option String)) (subs : Subs) (p : Nat)
    (c : Expression)
    (hexpr : node.expression
      = .assign .ASSIGN (.ident (.var env.state_var)) (.ident (.var p)))
    (hbound : List.lookup p subs = some c)
    (hc : expr_is_enum_val c env.enum_type = true) :
    mergeEndingStates env node ending_states subs = env.all_states.image some ∧
    mergeEndingStates env node ending_states subs
      = mergeEndingStates env node ending_states [] := by
  constructor <;> simp [mergeEndingStates, hexpr, expr_is_var, enum_val_name]

/-- Witness for C10: the assignment node `state = x` with variable `1` bound
to the constant `State.A` still produces the full state set. -/
theorem mergeEndingStates_ignores_substitutions_witness :
    mergeEndingStates envA nAssign {none} [(1, cA)] = envA.all_states.image some ∧
    mergeEndingStates envA nAssign {none} [(1, cA)]
      = mergeEndingStates envA nAssign {none} [] :=
  mergeEndingStates_ignores_substitutions envA nAssign {none} [(1, cA)] 1 cA
    rfl rfl (by decide)

/-! ## Claim C4 -/

/-- C4 evaluation (code bug): on a program unit with neither a
field-initializer pseudo-routine nor a constructor, `inferTransitionGraph`
succeeds but stores, as the graph's initial states, the bare first declared
value (a Python `str`), not the singleton set containing it: the source's
`find_initial_states` returns `self.enum_type.values[0]` unchanged although
its own annotation declares `-> Set[str]`.  (Here `PyVal` separates the two
dynamic types the Python local can have.) -/
theorem inferTransitionGraph_no_constructor_evaluation :
    (inferTransitionGraph envA 3).map (fun g => g.initialStates)
        = some (.str "A") ∧
    PyVal.str "A" ≠ PyVal.set {"A"} := by
  constructor
  · decide
  · decide

/-! ## Claim C5 -/

/-- C5 counterexample: in the 3-level call chain of `env5` (`f` calls
`g(State.A)`, `g` calls `h(p)`, `h` requires `state == q`), the substitution
map the code builds for `h` binds `q` to the syntactic argument `p`, not to
the constant, so the innermost guard resolves to `AllStates` rather than the
matching singleton `{"A"}`, and the outer-level exploration of `f` emits the
edge `("B", "B", f)` that the singleton resolution would have excluded. -/
theorem threeLevelChain_counterexample :
    possibleStates env5 (.binary .EQUAL vS (.ident (.var 2)))
        [(2, .ident (.var 1))] = env5.all_states ∧
    env5.all_states ≠ ({"A"} : Finset String) ∧
    exploreFunction env5 8 0 = some {⟨"A", "A", 0⟩, ⟨"B", "B", 0⟩} := by
  refine ⟨?_, ?_, ?_⟩ <;> decide

/-- C5 (amended): substitution maps are rebuilt from the caller's syntactic
arguments at every call site and never composed, so in a 3-level chain the
innermost guard's parameter resolves only to the intermediate parameter
identifier and the constraint vanishes (the exploration of `f` yields the
unconstrained reflexive edges); the constraint resolves to the matching
singleton exactly when the parameter is bound to the constant across a
single substitution level, as in the 2-level chain `f2` calling
`h(State.A)` directly. -/
theorem substitution_single_level_resolution :
    exploreFunction env5 8 0 = some {⟨"A", "A", 0⟩, ⟨"B", "B", 0⟩} ∧
    exploreFunction env5 8 3 = some {⟨"A", "A", 3⟩} := by
  constructor <;> decide

/-! ## Walker lemmas -/

/-- Every branch of `mergeInfo` returns either the context itself or an
intersection with it, for any exploration continuation. -/
theorem mergeInfoF_fst_subset (env : Env) (explore : ExploreFun) (node : NodeData)
    (context : Finset String) (ending_states : Finset (Option String))
    (subs : Subs) (level : Nat) (edges : Finset Edge)
    (c : Finset String) (e2 : Finset Edge)
    (h : mergeInfoF env explore node context ending_states subs level edges
      = some (c, e2)) : c ⊆ context := by
  unfold mergeInfoF at h
  split at h
  · split at h
    · simp only [Option.some.injEq, Prod.mk.injEq] at h
      obtain ⟨rfl, rfl⟩ := h
      exact Finset.inter_subset_left
    · cases h
  · split at h
    · split at h
      · cases h
      · split at h
        · split at h
          · cases h
          · split at h
            · cases h
            · simp only [Option.some.injEq, Prod.mk.injEq] at h
              obtain ⟨rfl, rfl⟩ := h
              exact Finset.inter_subset_left
        · cases h
    · simp only [Option.some.injEq, Prod.mk.injEq] at h
      obtain ⟨rfl, rfl⟩ := h
      exact Finset.Subset.refl context

/-! ## Claim C9 -/

/-- C9: whenever `exploreNode` terminates normally (returns a value rather
than raising or diverging), the state set it returns is a subset of the
context it was given: the context only shrinks along any path. -/
theorem exploreNode_result_subset_context (env : Env) (func : Nat) :
    ∀ (fuel nid : Nat) (context : Finset String)
      (ending_states : Finset (Option String)) (subs : Subs) (level : Nat)
      (edges : Finset Edge) (res : Finset String) (edges2 : Finset Edge),
      exploreNode env func fuel nid context ending_states subs level edges
        = some (res, edges2) → res ⊆ context := by
  intro fuel
  induction fuel with
  | zero =>
    intro nid context ending subs level edges res e2 h
    exact Option.noConfusion h
  | succ n ih =>
    intro nid context ending subs level edges res e2 h
    have h' : exploreNodeF env func (exploreNode env func n) nid context ending
        subs level edges = some (res, e2) := h
    simp only [exploreNodeF] at h'
    split at h'
    · exact Option.noConfusion h'
    rename_i node hn
    split at h'
    · exact Option.noConfusion h'
    rename_i newCtx edges1 hmi
    have hsub : newCtx ⊆ context :=
      mergeInfoF_fst_subset env (exploreNode env func n) node context ending
        subs level edges newCtx edges1 hmi
    split at h'
    · simp only [Option.some.injEq, Prod.mk.injEq] at h'
      obtain ⟨rfl, rfl⟩ := h'
      exact Finset.empty_subset context
    · split at h'
      · -- terminal node
        split at h' <;>
        · simp only [Option.some.injEq, Prod.mk.injEq] at h'
          obtain ⟨rfl, rfl⟩ := h'
          exact hsub
      · -- single successor
        rename_i son heqsons
        exact (ih son newCtx _ subs level edges1 res e2 h').trans hsub
      · -- two or more successors
        rename_i son_true son_false tail heqsons
        split at h'
        · -- IF node
          split at h'
          · exact Option.noConfusion h'
          rename_i res_true edgesB heq1
          split at h'
          · exact Option.noConfusion h'
          rename_i res_false edgesC heq2
          simp only [Option.some.injEq, Prod.mk.injEq] at h'
          obtain ⟨rfl, rfl⟩ := h'
          refine Finset.union_subset ?_ ?_
          · exact ((ih son_true _ _ subs level edges1 res_true edgesB heq1).trans
              Finset.inter_subset_left).trans hsub
          · exact ((ih son_false _ _ subs level edgesB res_false edgesC heq2).trans
              Finset.inter_subset_left).trans hsub
        · -- IFLOOP node
          exact (ih son_false newCtx _ subs level edges1 res e2 h').trans hsub
        · -- unexpected node type
          exact Option.noConfusion h'

/-- Witness for C9: exploring the require-guarded function from the full
context returns the strictly refined context. -/
theorem exploreNode_result_subset_context_witness :
    ({"A"} : Finset String) ⊆ {"A", "B"} :=
  exploreNode_result_subset_context envA 0 2 3 {"A", "B"} {none} [] 0 ∅
    {"A"} {⟨"A", "A", 0⟩} (by decide)

/-- The function `mergeInfo` leaves the working edge set unchanged whenever
the continuation used for call inlining does so at every positive level (the
inlined callee is always explored at `level + 1 ≥ 1`). -/
theorem mergeInfoF_edges_preserved (env : Env) (explore : ExploreFun)
    (hexp : ∀ (nid : Nat) (context : Finset String)
      (ending_states : Finset (Option String)) (subs : Subs) (level : Nat)
      (edges : Finset Edge) (res : Finset String) (edges2 : Finset Edge),
      1 ≤ level →
      explore nid context ending_states subs level edges = some (res, edges2) →
      edges2 = edges)
    (node : NodeData) (context : Finset String)
    (ending_states : Finset (Option String)) (subs : Subs) (level : Nat)
    (edges : Finset Edge) (c : Finset String) (e2 : Finset Edge)
    (h : mergeInfoF env explore node context ending_states subs level edges
      = some (c, e2)) : e2 = edges := by
  unfold mergeInfoF at h
  split at h
  · split at h
    · simp only [Option.some.injEq, Prod.mk.injEq] at h
      exact h.2.symm
    · cases h
  · split at h
    · split at h
      · cases h
      · split at h
        · split at h
          · cases h
          · split at h
            · cases h
            rename_i res edgesB hexpl
            simp only [Option.some.injEq, Prod.mk.injEq] at h
            obtain ⟨rfl, rfl⟩ := h
            exact hexp _ _ _ _ _ _ _ _ (Nat.le_add_left 1 level) hexpl
        · cases h
    · simp only [Option.some.injEq, Prod.mk.injEq] at h
      exact h.2.symm

/-- At any positive level, `exploreNode` leaves the working edge set
unchanged (edges are only recorded by `completeCodePath` at level 0), and
`mergeInfo` leaves it unchanged at every level. -/
theorem exploreNode_edges_preserved (env : Env) (func : Nat) :
    ∀ fuel : Nat,
      (∀ (nid : Nat) (context : Finset String)
        (ending_states : Finset (Option String)) (subs : Subs) (level : Nat)
        (edges : Finset Edge) (res : Finset String) (edges2 : Finset Edge),
        1 ≤ level →
        exploreNode env func fuel nid context ending_states subs level edges
          = some (res, edges2) → edges2 = edges) ∧
      (∀ (node : NodeData) (context : Finset String)
        (ending_states : Finset (Option String)) (subs : Subs) (level : Nat)
        (edges : Finset Edge) (c : Finset String) (e2 : Finset Edge),
        mergeInfo env func fuel node context ending_states subs level edges
          = some (c, e2) → e2 = edges) := by
  intro fuel
  induction fuel with
  | zero =>
    constructor
    · intro nid context ending subs level edges res e2 _ h
      exact Option.noConfusion h
    · intro node context ending subs level edges c e2 h
      exact mergeInfoF_edges_preserved env (exploreNode env func 0)
        (fun _ _ _ _ _ _ _ _ _ h0 => Option.noConfusion h0)
        node context ending subs level edges c e2 h
  | succ n ih =>
    have hE : ∀ (nid : Nat) (context : Finset String)
        (ending_states : Finset (Option String)) (subs : Subs) (level : Nat)
        (edges : Finset Edge) (res : Finset String) (edges2 : Finset Edge),
        1 ≤ level →
        exploreNode env func (n + 1) nid context ending_states subs level edges
          = some (res, edges2) → edges2 = edges := by
      intro nid context ending subs level edges res e2 hlvl h
      have h' : exploreNodeF env func (exploreNode env func n) nid context ending
          subs level edges = some (res, e2) := h
      simp only [exploreNodeF] at h'
      split at h'
      · exact Option.noConfusion h'
      rename_i node hn
      split at h'
      · exact Option.noConfusion h'
      rename_i newCtx edges1 hmi
      have hedges1 : edges1 = edges := ih.2 node context ending subs level edges
        newCtx edges1 hmi
      split at h'
      · simp only [Option.some.injEq, Prod.mk.injEq] at h'
        exact h'.2.symm.trans hedges1
      · split at h'
        · -- terminal node: level ≥ 1 so no edges are recorded
          rw [if_neg (by simp [Nat.pos_iff_ne_zero.mp hlvl])] at h'
          simp only [Option.some.injEq, Prod.mk.injEq] at h'
          exact h'.2.symm.trans hedges1
        · -- single successor
          rename_i son heqsons
          exact (ih.1 son newCtx _ subs level edges1 res e2 hlvl h').trans hedges1
        · -- two or more successors
          rename_i son_true son_false tail heqsons
          split at h'
          · -- IF node
            split at h'
            · exact Option.noConfusion h'
            rename_i res_true edgesB heq1
            split at h'
            · exact Option.noConfusion h'
            rename_i res_false edgesC heq2
            simp only [Option.some.injEq, Prod.mk.injEq] at h'
            obtain ⟨-, rfl⟩ := h'
            exact ((ih.1 son_false _ _ subs level edgesB res_false edgesC hlvl
              heq2).trans (ih.1 son_true _ _ subs level edges1 res_true edgesB
                hlvl heq1)).trans hedges1
          · -- IFLOOP node
            exact (ih.1 son_false newCtx _ subs level edges1 res e2 hlvl
              h').trans hedges1
          · -- unexpected node type
            exact Option.noConfusion h'
    refine ⟨hE, ?_⟩
    intro node context ending subs level edges c e2 h
    exact mergeInfoF_edges_preserved env (exploreNode env func (n + 1)) hE
      node context ending subs level edges c e2 h

/-! ## Claim C8 -/

/-- C8: when `exploreNode` encounters an unconditional-failure node
(revert/abort), the path terminates with no contribution: the returned state
set is empty and the working edge set is returned unchanged. -/
theorem exploreNode_revert_no_contribution (env : Env) (func fuel nid : Nat)
    (node : NodeData) (context : Finset String)
    (ending_states : Finset (Option String)) (subs : Subs) (level : Nat)
    (edges : Finset Edge) (res : Finset String) (edges2 : Finset Edge)
    (hn : env.nodes[nid]? = some node) (hrev : node.is_revert = true)
    (h : exploreNode env func fuel nid context ending_states subs level edges
      = some (res, edges2)) :
    res = ∅ ∧ edges2 = edges := by
  cases fuel with
  | zero => exact Option.noConfusion h
  | succ n =>
    have h' : exploreNodeF env func (exploreNode env func n) nid context
        ending_states subs level edges = some (res, edges2) := h
    simp only [exploreNodeF] at h'
    split at h'
    · exact Option.noConfusion h'
    rename_i node' hn'
    rw [hn] at hn'
    injection hn' with hn'
    subst hn'
    split at h'
    · exact Option.noConfusion h'
    rename_i newCtx edges1 hmi
    rw [if_pos hrev] at h'
    simp only [Option.some.injEq, Prod.mk.injEq] at h'
    obtain ⟨h1, h2⟩ := h'
    refine ⟨h1.symm, h2.symm.trans ?_⟩
    exact (exploreNode_edges_preserved env func n).2 node context ending_states
      subs level edges newCtx edges1 hmi

/-- Witness for C8 at the concrete revert function. -/
theorem exploreNode_revert_no_contribution_witness :
    (∅ : Finset String) = ∅ ∧ (∅ : Finset Edge) = ∅ :=
  exploreNode_revert_no_contribution envA 0 1 1 nRevert {"A", "B"} {none} [] 0
    ∅ ∅ ∅ rfl rfl (by decide)

/-! ## Claim C1 -/

/-- C1: at a terminal node (no successors) reached at the outermost level
(`level = 0`), `exploreNode` records, for every `start` in the refined
context and every entry in the refined ending-state set, the edge
`(start, resolveEnd start entry, func)` — where the `UNCHANGED` marker
(`none`) resolves to `start` and a concrete entry to itself — and returns
the refined context as the path's result. -/
theorem exploreNode_terminal_level0_records (env : Env) (func fuel nid : Nat)
    (node : NodeData) (context : Finset String)
    (ending_states : Finset (Option String)) (subs : Subs)
    (edges newEdges : Finset Edge) (newCtx : Finset String)
    (hn : env.nodes[nid]? = some node) (hrev : node.is_revert = false)
    (hsons : node.sons = [])
    (hmi : mergeInfo env func fuel node context ending_states subs 0 edges
      = some (newCtx, newEdges)) :
    exploreNode env func (fuel + 1) nid context ending_states subs 0 edges
      = some (newCtx, newEdges ∪ newCtx.biUnion (fun start =>
          (mergeEndingStates env node ending_states subs).image
            (fun endv => ⟨start, resolveEnd start endv, func⟩))) := by
  show exploreNodeF env func (exploreNode env func fuel) nid context
      ending_states subs 0 edges = _
  have hmi' : mergeInfoF env (exploreNode env func fuel) node context
      ending_states subs 0 edges = some (newCtx, newEdges) := hmi
  simp only [exploreNodeF, hn, hmi', hrev, hsons]
  simp [completeCodePath]

/-- Witness for C1 at the plain terminal node with the trivial refinement. -/
theorem exploreNode_terminal_level0_records_witness :
    exploreNode envA 0 2 0 {"A", "B"} {none} [] 0 ∅
      = some ({"A", "B"}, (∅ : Finset Edge) ∪ ({"A", "B"} : Finset String).biUnion
          (fun start => (mergeEndingStates envA nTerm {none} []).image
            (fun endv => ⟨start, resolveEnd start endv, 0⟩))) :=
  exploreNode_terminal_level0_records envA 0 1 0 nTerm {"A", "B"} {none} [] ∅ ∅
    {"A", "B"} rfl rfl rfl (by decide)

end EnumExplorer
